import Mathlib

/-!
Shallow embedding of `databuilder/extractor/bigquery_usage_extractor.py`
(`BigQueryTableUsageExtractor`): the usage aggregator `_count_usage`, the
extraction cursor `extract`, and the paginator `_page_over_results`.

Log entries are loosely-shaped nested documents; we model them as a small
JSON-like value type `JVal`.  A Python exception escaping a piece of code is
modelled with `Except`: `.error` carries the observable effects performed
before the raise (the usage-count increments already applied and whether the
consistency warning was already emitted).
-/

namespace BQUsage

/-- Hashable scalar values: the only values that can sit inside a Python dict
key (lists and dicts are unhashable and raise `TypeError` when used in one). -/
inductive JScalar where
  | str : String → JScalar
  | num : Int → JScalar
  | bool : Bool → JScalar
  | null : JScalar
  deriving DecidableEq, Repr, Inhabited

/-- JSON-like values, the shape of raw Stackdriver log entries.  Objects are
insertion-ordered association lists, as Python dicts are. -/
inductive JVal where
  | str : String → JVal
  | num : Int → JVal
  | bool : Bool → JVal
  | null : JVal
  | arr : List JVal → JVal
  | obj : List (String × JVal) → JVal
  deriving Inhabited

namespace JVal

/-- Python `d[k]`: `some` the value when `d` is a dict containing `k`;
`none` models the `KeyError`/`TypeError` raised otherwise. -/
def getKey : JVal → String → Option JVal
  | .obj fields, k => (fields.find? (fun p => p.1 == k)).map Prod.snd
  | _, _ => none

/-- Python truthiness of a value (`if not refTables`). -/
def truthy : JVal → Bool
  | .str s => decide (s ≠ "")
  | .num n => decide (n ≠ 0)
  | .bool b => b
  | .null => false
  | .arr l => !l.isEmpty
  | .obj l => !l.isEmpty

/-- Python `len(v)`: defined for sized values, `none` models the `TypeError`
raised on unsized ones. -/
def jlen : JVal → Option Nat
  | .str s => some s.length
  | .arr l => some l.length
  | .obj l => some l.length
  | _ => none

/-- Python iteration `for x in v`: list elements, dict keys, string
characters; `none` models the `TypeError` on non-iterables. -/
def iterElems : JVal → Option (List JVal)
  | .arr l => some l
  | .obj l => some (l.map (fun p => JVal.str p.1))
  | .str s => some (s.toList.map (fun c => JVal.str (String.mk [c])))
  | _ => none

/-- The scalar (hashable) view of a value: `none` for lists and dicts, which
raise `TypeError` when placed inside a dict key. -/
def toScalar : JVal → Option JScalar
  | .str s => some (.str s)
  | .num n => some (.num n)
  | .bool b => some (.bool b)
  | .null => some .null
  | .arr _ => none
  | .obj _ => none

/-- Python `v != s` for a string literal `s`: string compare when `v` is a
string, always unequal otherwise (no exception). -/
def pyNeStr (v : JVal) (s : String) : Bool :=
  match v with
  | .str t => decide (t ≠ s)
  | _ => true

/-- Python `(n : int) != v` (used for `len(refTables) != totalTablesProcessed`):
numeric compare against ints and bools, always unequal for other types. -/
def lenNeq (n : Nat) (v : JVal) : Bool :=
  match v with
  | .num m => decide ((n : Int) ≠ m)
  | .bool b => decide ((n : Int) ≠ (if b then 1 else 0))
  | _ => true

end JVal

/-- `TableColumnUsageTuple` from the source: the aggregation key.  Fields hold
the scalar values taken from the log entry (`database` is always the string
`"bigquery"` and `column` the wildcard `"*"` in keys the code builds). -/
structure TableColumnUsageTuple where
  database : JScalar
  cluster : JScalar
  schema : JScalar
  table : JScalar
  column : JScalar
  email : JScalar
  deriving DecidableEq, Repr, Inhabited

/-- `self.table_usage_counts`: a Python dict modelled as an insertion-ordered
association list (new keys are appended, updates happen in place). -/
abbrev AggState := List (TableColumnUsageTuple × Nat)

/-- Dict read `table_usage_counts.get(key)`-style lookup: the value stored at
the first (and in a dict, only) occurrence of the key. -/
def lookup : AggState → TableColumnUsageTuple → Option Nat
  | [], _ => none
  | p :: ps, k => if p.1 = k then some p.2 else lookup ps k

/-- `table_usage_counts.get(key, 0)`. -/
def lookupN (s : AggState) (k : TableColumnUsageTuple) : Nat :=
  (lookup s k).getD 0

/-- Dict assignment `table_usage_counts[key] = v`: update the existing entry in
place, else append a new one (Python dicts keep insertion order). -/
def setKey : AggState → TableColumnUsageTuple → Nat → AggState
  | [], k, v => [(k, v)]
  | p :: ps, k, v => if p.1 = k then (k, v) :: ps else p :: setKey ps k v

/-- Lines 92-93: `new_count = get(key, 0) + 1; table_usage_counts[key] = new_count`. -/
def bump (s : AggState) (k : TableColumnUsageTuple) : AggState :=
  setKey s k (lookupN s k + 1)

/-- Apply one increment per key, left to right (the inner `for refTable` loop). -/
def applyKeys (s : AggState) (ks : List TableColumnUsageTuple) : AggState :=
  ks.foldl bump s

/-- Line 52: `entry['protoPayload']['serviceData']['jobCompletedEvent']['job']`,
the navigation guarded by `try`/`except`. -/
def navJob (entry : JVal) : Option JVal :=
  (((entry.getKey "protoPayload").bind
      (fun pp => pp.getKey "serviceData")).bind
    (fun sd => sd.getKey "jobCompletedEvent")).bind
  (fun jce => jce.getKey "job")

/-- Line 63: `entry['protoPayload']['authenticationInfo']['principalEmail']`
(not guarded by any `try`/`except`). -/
def emailOf (entry : JVal) : Option JVal :=
  ((entry.getKey "protoPayload").bind
      (fun pp => pp.getKey "authenticationInfo")).bind
    (fun ai => ai.getKey "principalEmail")

/-- Lines 74-77: the email filter.  `if self.email_pattern:` is Python
truthiness, so a `None` or empty pattern disables filtering; `re.match`
raises `TypeError` on a non-string subject (`.error`); otherwise the abstract
matcher `reMatch` decides acceptance.  `.ok true` means "keep the entry". -/
def emailFilter (reMatch : String → String → Bool) (emailPattern : Option String)
    (email : JVal) : Except Unit Bool :=
  match emailPattern with
  | none => .ok true
  | some pat =>
    if pat.isEmpty then .ok true
    else
      match email with
      | .str s => .ok (reMatch pat s)
      | _ => .error ()

/-- A key-building field of a referenced table: `refTable['projectId']` etc.
`none` models either the `KeyError` of a missing field or the `TypeError`
raised when the (unhashable) value reaches the dict operation on
`table_usage_counts`; both abort the entry with the same observable effects. -/
def scalarKey (t : JVal) (k : String) : Option JScalar :=
  (t.getKey k).bind JVal.toScalar

/-- Lines 84-93, the `for refTable in refTables` loop: for each table look up
`projectId`, `datasetId`, `tableId`, build the key and increment its count.
A missing field or an unhashable field value raises, with the increments made
so far kept (`.error` carries them).  Keys are returned in loop order. -/
def buildKeys (email : Option JScalar) :
    List JVal → List TableColumnUsageTuple →
    Except (List TableColumnUsageTuple) (List TableColumnUsageTuple)
  | [], acc => .ok acc.reverse
  | t :: ts, acc =>
    match scalarKey t "projectId" with
    | none => .error acc.reverse
    | some p =>
      match scalarKey t "datasetId" with
      | none => .error acc.reverse
      | some d =>
        match scalarKey t "tableId" with
        | none => .error acc.reverse
        | some tb =>
          match email with
          | none => .error acc.reverse
          | some em =>
            buildKeys email ts
              ({ database := .str "bigquery", cluster := p, schema := d,
                 table := tb, column := .str "*", email := em } :: acc)

/-- The table loop together with the iterability requirement of
`for refTable in refTables` (line 84).  `warned` records whether the
consistency warning of line 81 was already emitted. -/
def loopTables (email : Option JScalar) (refT : JVal) (warned : Bool) :
    Except (List TableColumnUsageTuple × Bool) (List TableColumnUsageTuple × Bool) :=
  match refT.iterElems with
  | none => .error ([], warned)
  | some ts =>
    match buildKeys email ts [] with
    | .ok ks => .ok (ks, warned)
    | .error ks => .error (ks, warned)

/-- Lines 79-93: read `totalTablesProcessed` (raising if absent), compare it
with `len(refTables)`, on a mismatch format the warning — which first reads
`job['jobName']['jobId']` and hence can raise *before* the warning is logged —
then run the table loop. -/
def finishEntry (email : Option JScalar) (job stats refT : JVal) :
    Except (List TableColumnUsageTuple × Bool) (List TableColumnUsageTuple × Bool) :=
  match stats.getKey "totalTablesProcessed" with
  | none => .error ([], false)
  | some tot =>
    match refT.jlen with
    | none => .error ([], false)
    | some n =>
      if JVal.lenNeq n tot then
        match (job.getKey "jobName").bind (fun jn => jn.getKey "jobId") with
        | none => .error ([], false)
        | some _ => loopTables email refT true
      else loopTables email refT false

/-- One iteration of the `for entry in self._retrieve_records()` body of
`_count_usage` (lines 51-93).  The result is the list of usage-key increments
the entry performs plus whether it emitted the consistency warning; `.ok`
means control reaches the next entry, `.error` means an uncaught exception
aborts the aggregation run (with the effects made so far). -/
def processEntry (reMatch : String → String → Bool) (emailPattern : Option String)
    (entry : JVal) :
    Except (List TableColumnUsageTuple × Bool) (List TableColumnUsageTuple × Bool) :=
  match navJob entry with
  | none => .ok ([], false)
  | some job =>
    match job.getKey "jobStatus" with
    | none => .error ([], false)
    | some jobStatus =>
      match jobStatus.getKey "state" with
      | none => .error ([], false)
      | some st =>
        if st.pyNeStr "DONE" then .ok ([], false)
        else
          match JVal.jlen ((jobStatus.getKey "error").getD (.obj [])) with
          | none => .error ([], false)
          | some elen =>
            if 0 < elen then .ok ([], false)
            else
              match emailOf entry with
              | none => .error ([], false)
              | some email =>
                match job.getKey "jobStatistics" with
                | none => .error ([], false)
                | some stats =>
                  let refT := (stats.getKey "referencedTables").getD .null
                  if refT.truthy then
                    match emailFilter reMatch emailPattern email with
                    | .error _ => .error ([], false)
                    | .ok false => .ok ([], false)
                    | .ok true => finishEntry email.toScalar job stats refT
                  else .ok ([], false)

/-- The usage-key increments an entry contributes to the aggregation state
(empty on every skip path; on a raise, the increments applied before it). -/
def entryIncrements (reMatch : String → String → Bool) (emailPattern : Option String)
    (entry : JVal) : List TableColumnUsageTuple :=
  match processEntry reMatch emailPattern entry with
  | .ok (ks, _) => ks
  | .error (ks, _) => ks

/-- The `for entry in ...` loop of `_count_usage` over a given entry stream,
threading the aggregation state and the number of warnings logged.  `.error`
models the run aborting with an uncaught exception. -/
def runEntries (reMatch : String → String → Bool) (emailPattern : Option String) :
    List JVal → AggState × Nat → Except (AggState × Nat) (AggState × Nat)
  | [], st => .ok st
  | e :: es, (s, w) =>
    match processEntry reMatch emailPattern e with
    | .ok (ks, warned) =>
        runEntries reMatch emailPattern es
          (applyKeys s ks, w + (if warned then 1 else 0))
    | .error (ks, warned) =>
        .error (applyKeys s ks, w + (if warned then 1 else 0))

/-- `_count_usage`, starting from the empty `table_usage_counts` dict. -/
def countUsage (reMatch : String → String → Bool) (emailPattern : Option String)
    (entries : List JVal) : Except (AggState × Nat) (AggState × Nat) :=
  runEntries reMatch emailPattern entries ([], 0)

/-- The `table_usage_counts` dict as it stands when `_count_usage` returns or
when the uncaught exception leaves it. -/
def resultState : Except (AggState × Nat) (AggState × Nat) → AggState
  | .ok (s, _) => s
  | .error (s, _) => s

/-- The extractor's iteration state after `init`: the frozen counts map and
`self.iter = iter(self.table_usage_counts)`, a cursor over its keys. -/
structure ExtractState where
  counts : AggState
  cursor : List TableColumnUsageTuple

/-- `self.iter = iter(self.table_usage_counts)`: cursor over the dict's keys
in insertion order. -/
def initExtract (s : AggState) : ExtractState :=
  ⟨s, s.map Prod.fst⟩

/-- `extract` (lines 116-122): `next(self.iter)` returns the next key and its
count, `StopIteration` becomes the terminal `None`.  The cursor only ever
holds keys of the map, so the dict read `table_usage_counts[key]` always
succeeds; its unreachable miss is modelled with default `0`. -/
def extract : ExtractState → Option (TableColumnUsageTuple × Nat) × ExtractState
  | ⟨s, []⟩ => (none, ⟨s, []⟩)
  | ⟨s, k :: ks⟩ => (some (k, lookupN s k), ⟨s, ks⟩)

/-- The results of `n` successive `extract()` calls. -/
def extractSeq : ExtractState → Nat → List (Option (TableColumnUsageTuple × Nat))
  | _, 0 => []
  | st, n + 1 =>
    let r := extract st
    r.1 :: extractSeq r.2 n

/-- A response of `logging_service.entries().list(...).execute()`: the
optional `entries` field and the optional `nextPageToken`. -/
structure LogPage where
  entriesField : Option (List JVal)
  nextPageToken : Option String

/-- The `while response:` loop of `_page_over_results` (lines 128-141).
`calls i` is the outcome of the `i`-th `execute()` call (`.error` = the
transient exception the bare `except` catches).  Returns the pages yielded
and the number of `sleep(self.delay_time)` delays taken; the fuel bounds the
number of loop iterations modelled (the real loop can retry forever). -/
def pageLoop (calls : Nat → Except Unit LogPage) :
    Nat → LogPage → Nat → List LogPage × Nat
  | 0, _, _ => ([], 0)
  | fuel + 1, resp, i =>
    let ys : List LogPage :=
      match resp.entriesField with
      | some _ => [resp]
      | none => []
    match resp.nextPageToken with
    | none => (ys, 0)
    | some _ =>
      match calls i with
      | .ok r =>
        let rest := pageLoop calls fuel r (i + 1)
        (ys ++ rest.1, rest.2)
      | .error _ =>
        let rest := pageLoop calls fuel resp (i + 1)
        (ys ++ rest.1, rest.2 + 1)

/-- `_page_over_results`: the first `execute()` (line 126) is *not* inside the
`try`, so its failure escapes (`.error`); afterwards the `while` loop runs. -/
def pageOverResults (calls : Nat → Except Unit LogPage) (fuel : Nat) :
    Except Unit (List LogPage × Nat) :=
  match calls 0 with
  | .error _ => .error ()
  | .ok r => .ok (pageLoop calls fuel r 1)

/-- `_retrieve_records`: flatten `page['entries']` over the yielded pages
(every yielded page passed the `'entries' in response` check). -/
def retrievedEntries (pages : List LogPage) : List JVal :=
  pages.foldr (fun p acc => p.entriesField.getD [] ++ acc) []

/-- Python `re.match(pattern, s)` for a pattern with no regex metacharacters:
it succeeds exactly when the pattern matches a leading substring of `s`
(`re.match` anchors at the start only — it is not a full match). -/
def reMatchLiteral (pat s : String) : Bool :=
  pat.toList.isPrefixOf s.toList

/-- Whether a result of a piece of code is a normal return (no exception). -/
def isOkE {α β : Type} : Except α β → Bool
  | .ok _ => true
  | .error _ => false

/-- Whether processing an entry emitted the consistency warning of line 81. -/
def entryWarned (reMatch : String → String → Bool) (emailPattern : Option String)
    (entry : JVal) : Bool :=
  match processEntry reMatch emailPattern entry with
  | .ok (_, w) => w
  | .error (_, w) => w

/-- All usage-key increments performed across a list of entries, in order. -/
def incs (reMatch : String → String → Bool) (emailPattern : Option String)
    (l : List JVal) : List TableColumnUsageTuple :=
  l.flatMap (entryIncrements reMatch emailPattern)

/-- Number of consistency warnings emitted across a list of entries. -/
def warnCount (reMatch : String → String → Bool) (emailPattern : Option String)
    (l : List JVal) : Nat :=
  (l.map (fun e => if entryWarned reMatch emailPattern e then 1 else 0)).sum

/-- The usage key line 85-90 builds for one referenced table: `database` fixed
to `"bigquery"`, `column` fixed to the wildcard `"*"`, cluster/schema/table
from the reference, `email` the entry's principal email. -/
def keyOf (email : JScalar) (t : JVal) : TableColumnUsageTuple :=
  { database := .str "bigquery",
    cluster := (scalarKey t "projectId").getD .null,
    schema := (scalarKey t "datasetId").getD .null,
    table := (scalarKey t "tableId").getD .null,
    column := .str "*",
    email := email }

/-- The entry's principal email passes the (possibly absent) email filter. -/
def patternPasses (reMatch : String → String → Bool) (emailPattern : Option String)
    (email : JVal) : Prop :=
  emailFilter reMatch emailPattern email = .ok true

/-- A referenced-table record carrying the three id fields with hashable
values, so that building and counting its key cannot raise. -/
def refOk (t : JVal) : Prop :=
  (scalarKey t "projectId").isSome ∧ (scalarKey t "datasetId").isSome ∧
    (scalarKey t "tableId").isSome

/-- Every count stored in the aggregation state is strictly positive. -/
def PosVals (s : AggState) : Prop :=
  ∀ k n, lookup s k = some n → 1 ≤ n

/-! ### Concrete inputs used by witnesses and counterexamples -/

/-- A referenced table `proj.ds.t1`. -/
def refT1 : JVal :=
  .obj [("projectId", .str "proj"), ("datasetId", .str "ds"), ("tableId", .str "t1")]

/-- A fully well-formed job-completed entry by `email` referencing `refT1`
(state DONE, no errors, `totalTablesProcessed = 1`). -/
def goodEntry (email : String) : JVal :=
  .obj [
    ("protoPayload", .obj [
      ("serviceData", .obj [("jobCompletedEvent", .obj [("job", .obj [
        ("jobStatus", .obj [("state", .str "DONE")]),
        ("jobStatistics", .obj [("referencedTables", .arr [refT1]),
                                ("totalTablesProcessed", .num 1)]),
        ("jobName", .obj [("jobId", .str "j1")])])])]),
      ("authenticationInfo", .obj [("principalEmail", .str email)])])]

/-- The key `goodEntry email` increments. -/
def goodKey (email : String) : TableColumnUsageTuple :=
  { database := .str "bigquery", cluster := .str "proj", schema := .str "ds",
    table := .str "t1", column := .str "*", email := .str email }

/-- An entry whose job-completed payload is navigable but whose job record
lacks the `jobStatus` field. -/
def entryMissingJobStatus : JVal :=
  .obj [("protoPayload", .obj [
    ("serviceData", .obj [("jobCompletedEvent", .obj [("job", .obj [])])])])]

/-- An entry missing `serviceData`, so the guarded navigation of line 52
fails. -/
def entryMissingServiceData : JVal :=
  .obj [("protoPayload", .obj [("authenticationInfo", .obj [])])]

/-- A well-formed entry whose job state is `"RUNNING"`. -/
def runningEntry : JVal :=
  .obj [("protoPayload", .obj [
    ("serviceData", .obj [("jobCompletedEvent", .obj [("job", .obj [
      ("jobStatus", .obj [("state", .str "RUNNING")])])])])])]

/-- The claim C7 scenario: one referenced table but
`totalTablesProcessed = 2`. -/
def mismatchEntry : JVal :=
  .obj [
    ("protoPayload", .obj [
      ("serviceData", .obj [("jobCompletedEvent", .obj [("job", .obj [
        ("jobStatus", .obj [("state", .str "DONE")]),
        ("jobStatistics", .obj [("referencedTables", .arr [refT1]),
                                ("totalTablesProcessed", .num 2)]),
        ("jobName", .obj [("jobId", .str "j1")])])])]),
      ("authenticationInfo", .obj [("principalEmail", .str "alice@co")])])]

/-- Page 1 of the claim C2 pagination scenario. -/
def page1 : LogPage := ⟨some [.str "e1", .str "e2"], some "t1"⟩

/-- Page 2 of the claim C2 pagination scenario. -/
def page2 : LogPage := ⟨some [.str "e3", .str "e4"], some "t2"⟩

/-- Page 3 (final) of the claim C2 pagination scenario. -/
def page3 : LogPage := ⟨some [.str "e5", .str "e6"], none⟩

/-- The claim C2 transport: fetching page 3 raises a transient error exactly
once (call 2) and then succeeds. -/
def transientCalls : Nat → Except Unit LogPage
  | 0 => .ok page1
  | 1 => .ok page2
  | 2 => .error ()
  | _ => .ok page3

/-- A string entry is the given literal (Python equality against the
entries of the C2 scenario). -/
def isStrVal (s : String) (v : JVal) : Bool :=
  match v with
  | .str t => t == s
  | _ => false

/-! ### Lemmas about the aggregation dict -/

theorem lookup_append (s t : AggState) (k : TableColumnUsageTuple) :
    lookup (s ++ t) k = ((lookup s k).rec (lookup t k) (fun v => some v)) := by
  induction s with
  | nil => simp [lookup]
  | cons p ps ih =>
    by_cases h : p.1 = k <;> simp [lookup, h, ih]

theorem lookup_eq_none_iff (s : AggState) (k : TableColumnUsageTuple) :
    lookup s k = none ↔ k ∉ s.map Prod.fst := by
  induction s with
  | nil => simp [lookup]
  | cons p ps ih =>
    by_cases h : p.1 = k
    · simp [lookup, h]
    · rw [show lookup (p :: ps) k = lookup ps k from by simp [lookup, h]]
      simp only [List.map_cons, List.mem_cons, not_or]
      rw [ih]
      constructor
      · intro hn
        exact ⟨fun hk => h hk.symm, hn⟩
      · intro hn
        exact hn.2

theorem lookup_setKey_self (s : AggState) (k : TableColumnUsageTuple) (v : Nat) :
    lookup (setKey s k v) k = some v := by
  induction s with
  | nil => simp [setKey, lookup]
  | cons p ps ih =>
    by_cases h : p.1 = k <;> simp [setKey, lookup, h, ih]

theorem lookup_setKey_ne (s : AggState) {k k0 : TableColumnUsageTuple} (v : Nat)
    (h : k ≠ k0) : lookup (setKey s k0 v) k = lookup s k := by
  induction s with
  | nil => simp [setKey, lookup, Ne.symm h]
  | cons p ps ih =>
    by_cases hp : p.1 = k0
    · simp [setKey, lookup, hp, Ne.symm h]
    · simp [setKey, lookup, hp, ih]

theorem lookup_bump_self (s : AggState) (k : TableColumnUsageTuple) :
    lookup (bump s k) k = some (lookupN s k + 1) :=
  lookup_setKey_self s k _

theorem lookup_bump_ne (s : AggState) {k k0 : TableColumnUsageTuple}
    (h : k ≠ k0) : lookup (bump s k0) k = lookup s k :=
  lookup_setKey_ne s _ h

theorem applyKeys_append (s : AggState) (a b : List TableColumnUsageTuple) :
    applyKeys s (a ++ b) = applyKeys (applyKeys s a) b := by
  simp [applyKeys, List.foldl_append]

theorem lookupN_applyKeys (ks : List TableColumnUsageTuple)
    (k : TableColumnUsageTuple) :
    ∀ s : AggState, lookupN (applyKeys s ks) k = lookupN s k + ks.count k := by
  induction ks with
  | nil => intro s; simp [applyKeys]
  | cons k0 ks ih =>
    intro s
    have hstep : applyKeys s (k0 :: ks) = applyKeys (bump s k0) ks := rfl
    rw [hstep, ih]
    by_cases h : k = k0
    · subst h
      simp [lookupN, lookup_bump_self, List.count_cons]
      omega
    · simp [lookupN, lookup_bump_ne s h, List.count_cons, h]

theorem lookup_bump_eq_none_iff (s : AggState) (k k0 : TableColumnUsageTuple) :
    lookup (bump s k0) k = none ↔ lookup s k = none ∧ k ≠ k0 := by
  by_cases h : k = k0
  · subst h; simp [lookup_bump_self]
  · simp [lookup_bump_ne s h, h]

theorem lookup_applyKeys_eq_none_iff (ks : List TableColumnUsageTuple)
    (k : TableColumnUsageTuple) :
    ∀ s : AggState, lookup (applyKeys s ks) k = none ↔
      lookup s k = none ∧ k ∉ ks := by
  induction ks with
  | nil => intro s; simp [applyKeys]
  | cons k0 ks ih =>
    intro s
    have hstep : applyKeys s (k0 :: ks) = applyKeys (bump s k0) ks := rfl
    rw [hstep, ih, lookup_bump_eq_none_iff]
    constructor
    · rintro ⟨⟨h1, h2⟩, h3⟩
      exact ⟨h1, by simp [h2, h3]⟩
    · rintro ⟨h1, h2⟩
      simp only [List.mem_cons, not_or] at h2
      exact ⟨⟨h1, h2.1⟩, h2.2⟩

theorem lookup_applyKeys_nil (ks : List TableColumnUsageTuple)
    (k : TableColumnUsageTuple) :
    lookup (applyKeys [] ks) k =
      if k ∈ ks then some (ks.count k) else none := by
  by_cases h : k ∈ ks
  · cases hl : lookup (applyKeys [] ks) k with
    | none =>
      rw [lookup_applyKeys_eq_none_iff] at hl
      exact absurd h hl.2
    | some n =>
      have hv := lookupN_applyKeys ks k []
      simp [lookupN, hl, lookup] at hv
      simp [h, hl, hv]
  · have : lookup (applyKeys [] ks) k = none := by
      rw [lookup_applyKeys_eq_none_iff]
      exact ⟨rfl, h⟩
    simp [h, this]

/-! ### Key-set invariants: the dict's keys stay duplicate-free -/

theorem map_fst_setKey (s : AggState) (k : TableColumnUsageTuple) (v : Nat) :
    (setKey s k v).map Prod.fst =
      if k ∈ s.map Prod.fst then s.map Prod.fst else s.map Prod.fst ++ [k] := by
  induction s with
  | nil => simp [setKey]
  | cons p ps ih =>
    by_cases hp : p.1 = k
    · simp [setKey, hp]
    · have hne : ¬ k = p.1 := fun hh => hp hh.symm
      by_cases hm : k ∈ ps.map Prod.fst <;>
        simp [setKey, hp, ih, hm, hne]

theorem nodup_keys_bump (s : AggState) (k : TableColumnUsageTuple)
    (h : (s.map Prod.fst).Nodup) : ((bump s k).map Prod.fst).Nodup := by
  rw [bump, map_fst_setKey]
  by_cases hm : k ∈ s.map Prod.fst
  · simpa [hm] using h
  · simp [hm, List.nodup_append, h]

theorem nodup_keys_applyKeys (ks : List TableColumnUsageTuple) :
    ∀ s : AggState, (s.map Prod.fst).Nodup →
      ((applyKeys s ks).map Prod.fst).Nodup := by
  induction ks with
  | nil => intro s h; exact h
  | cons k0 ks ih =>
    intro s h
    exact ih (bump s k0) (nodup_keys_bump s k0 h)

/-! ### Positivity of stored counts -/

theorem posVals_bump (s : AggState) (k : TableColumnUsageTuple)
    (h : PosVals s) : PosVals (bump s k) := by
  intro k2 n hl
  by_cases hk : k2 = k
  · subst hk
    rw [lookup_bump_self] at hl
    injection hl with hl
    omega
  · rw [lookup_bump_ne s hk] at hl
    exact h k2 n hl

theorem posVals_applyKeys (ks : List TableColumnUsageTuple) :
    ∀ s : AggState, PosVals s → PosVals (applyKeys s ks) := by
  induction ks with
  | nil => intro s h; exact h
  | cons k0 ks ih =>
    intro s h
    exact ih (bump s k0) (posVals_bump s k0 h)

/-! ### Characterisation of the aggregation run -/

theorem incs_cons (rm : String → String → Bool) (pat : Option String)
    (e : JVal) (es : List JVal) :
    incs rm pat (e :: es) = entryIncrements rm pat e ++ incs rm pat es := by
  simp [incs]

theorem warnCount_cons (rm : String → String → Bool) (pat : Option String)
    (e : JVal) (es : List JVal) :
    warnCount rm pat (e :: es) =
      (if entryWarned rm pat e then 1 else 0) + warnCount rm pat es := by
  simp [warnCount]

theorem runEntries_ok_iff (rm : String → String → Bool) (pat : Option String)
    (l : List JVal) :
    ∀ s w s2 w2, runEntries rm pat l (s, w) = .ok (s2, w2) ↔
      ((∀ e ∈ l, isOkE (processEntry rm pat e) = true) ∧
        s2 = applyKeys s (incs rm pat l) ∧ w2 = w + warnCount rm pat l) := by
  induction l with
  | nil =>
    intro s w s2 w2
    constructor
    · intro h
      injection h with h
      injection h with h1 h2
      exact ⟨by simp, by simp [incs, applyKeys, h1.symm], by simp [warnCount, h2.symm]⟩
    · rintro ⟨-, h1, h2⟩
      simp [runEntries, h1, h2, incs, applyKeys, warnCount]
  | cons e es ih =>
    intro s w s2 w2
    cases hpe : processEntry rm pat e with
    | ok kw =>
      obtain ⟨ks, wd⟩ := kw
      have hinc : entryIncrements rm pat e = ks := by
        simp [entryIncrements, hpe]
      have hwd : entryWarned rm pat e = wd := by
        simp [entryWarned, hpe]
      have hstep : runEntries rm pat (e :: es) (s, w) =
          runEntries rm pat es (applyKeys s ks, w + (if wd then 1 else 0)) := by
        simp [runEntries, hpe]
      rw [hstep, ih]
      constructor
      · rintro ⟨hall, h1, h2⟩
        refine ⟨?_, ?_, ?_⟩
        · intro x hx
          rcases List.mem_cons.mp hx with hx | hx
          · subst hx; simp [isOkE, hpe]
          · exact hall x hx
        · rw [h1, incs_cons, hinc, applyKeys_append]
        · rw [h2, warnCount_cons, hwd]
          omega
      · rintro ⟨hall, h1, h2⟩
        refine ⟨fun x hx => hall x (List.mem_cons_of_mem e hx), ?_, ?_⟩
        · rw [h1, incs_cons, hinc, applyKeys_append]
        · rw [h2, warnCount_cons, hwd]
          omega
    | error kw =>
      have hbad : isOkE (processEntry rm pat e) = false := by
        simp [isOkE, hpe]
      have hstep : runEntries rm pat (e :: es) (s, w) = .error
          (applyKeys s kw.1, w + (if kw.2 then 1 else 0)) := by
        cases kw
        simp [runEntries, hpe]
      constructor
      · intro h
        rw [hstep] at h
        exact absurd h (by simp)
      · rintro ⟨hall, -, -⟩
        have := hall e (by simp)
        rw [hbad] at this
        exact absurd this (by simp)

theorem countUsage_ok_iff (rm : String → String → Bool) (pat : Option String)
    (l : List JVal) (s2 : AggState) (w2 : Nat) :
    countUsage rm pat l = .ok (s2, w2) ↔
      ((∀ e ∈ l, isOkE (processEntry rm pat e) = true) ∧
        s2 = applyKeys [] (incs rm pat l) ∧ w2 = warnCount rm pat l) := by
  rw [countUsage, runEntries_ok_iff]
  simp

theorem posVals_runEntries (rm : String → String → Bool) (pat : Option String)
    (l : List JVal) :
    ∀ st : AggState × Nat, PosVals st.1 →
      PosVals (resultState (runEntries rm pat l st)) := by
  induction l with
  | nil => intro st h; exact h
  | cons e es ih =>
    rintro ⟨s, w⟩ h
    cases hpe : processEntry rm pat e with
    | ok kw =>
      have hstep : runEntries rm pat (e :: es) (s, w) =
          runEntries rm pat es (applyKeys s kw.1, w + (if kw.2 then 1 else 0)) := by
        cases kw
        simp [runEntries, hpe]
      rw [hstep]
      exact ih _ (posVals_applyKeys kw.1 s h)
    | error kw =>
      have hstep : runEntries rm pat (e :: es) (s, w) = .error
          (applyKeys s kw.1, w + (if kw.2 then 1 else 0)) := by
        cases kw
        simp [runEntries, hpe]
      rw [hstep]
      exact posVals_applyKeys kw.1 s h

/-! ### Characterisation of processing one entry -/

theorem pyNeStr_eq_true_of_ne {v : JVal} {s : String} (h : v ≠ .str s) :
    v.pyNeStr s = true := by
  cases v with
  | str t =>
    simp only [JVal.pyNeStr, decide_eq_true_eq]
    intro hh
    exact h (by rw [hh])
  | num n => rfl
  | bool b => rfl
  | null => rfl
  | arr l => rfl
  | obj l => rfl

theorem buildKeys_ok (em : JScalar) (ts : List JVal) (h : ∀ t ∈ ts, refOk t) :
    ∀ acc, buildKeys (some em) ts acc = .ok (acc.reverse ++ ts.map (keyOf em)) := by
  induction ts with
  | nil => intro acc; simp [buildKeys]
  | cons t ts ih =>
    intro acc
    obtain ⟨hp, hd, htb⟩ := h t (by simp)
    obtain ⟨p, hp⟩ := Option.isSome_iff_exists.mp hp
    obtain ⟨d, hd⟩ := Option.isSome_iff_exists.mp hd
    obtain ⟨tb, htb⟩ := Option.isSome_iff_exists.mp htb
    have hrest : ∀ x ∈ ts, refOk x := fun x hx => h x (by simp [hx])
    simp only [buildKeys, hp, hd, htb]
    rw [ih hrest]
    simp [keyOf, hp, hd, htb]

theorem loopTables_ok (em : JScalar) (rts : List JVal) (warned : Bool)
    (h : ∀ t ∈ rts, refOk t) :
    loopTables (some em) (.arr rts) warned = .ok (rts.map (keyOf em), warned) := by
  simp only [loopTables, JVal.iterElems, buildKeys_ok em rts h []]
  rfl

/-- Processing an entry that passes every filter: navigation succeeds, the
job state is DONE, the error set is empty, the referenced-tables list is a
non-empty array, the email passes the configured filter, and all the fields
the rest of the pipeline reads are present with hashable values.  The entry
performs exactly one increment per referenced table, with the key fields of
lines 85-90, and warns iff the table count disagrees with
`totalTablesProcessed`. -/
theorem processEntry_qualifying (rm : String → String → Bool) (pat : Option String)
    (e job js stats tot email : JVal) (emS : JScalar) (rts : List JVal)
    (hNav : navJob e = some job)
    (hjs : job.getKey "jobStatus" = some js)
    (hst : js.getKey "state" = some (.str "DONE"))
    (herr : JVal.jlen ((js.getKey "error").getD (.obj [])) = some 0)
    (hem : emailOf e = some email)
    (hemS : email.toScalar = some emS)
    (hstats : job.getKey "jobStatistics" = some stats)
    (hrt : stats.getKey "referencedTables" = some (.arr rts))
    (hne : rts ≠ [])
    (hpat : patternPasses rm pat email)
    (htot : stats.getKey "totalTablesProcessed" = some tot)
    (hname : JVal.lenNeq rts.length tot = true →
      ((job.getKey "jobName").bind (fun jn => jn.getKey "jobId")).isSome)
    (htabs : ∀ t ∈ rts, refOk t) :
    processEntry rm pat e =
      .ok (rts.map (keyOf emS), JVal.lenNeq rts.length tot) := by
  have hdone : JVal.pyNeStr (.str "DONE") "DONE" = false := by
    simp [JVal.pyNeStr]
  have htruthy : JVal.truthy (.arr rts) = true := by
    simp [JVal.truthy, hne]
  rw [patternPasses] at hpat
  simp only [processEntry, hNav, hjs, hst, hdone, Bool.false_eq_true, if_false,
    herr, lt_self_iff_false, hem, hstats, hrt, Option.getD_some, htruthy,
    if_true, hpat, hemS]
  simp only [finishEntry, htot, JVal.jlen]
  cases hln : JVal.lenNeq rts.length tot with
  | true =>
    obtain ⟨jid, hjid⟩ := Option.isSome_iff_exists.mp (hname hln)
    simp only [hln, if_true, hjid, loopTables_ok emS rts true htabs]
  | false =>
    simp only [hln, Bool.false_eq_true, if_false, loopTables_ok emS rts false htabs]

/-- Processing an otherwise-qualifying entry whose email the configured
filter rejects: the entry is silently discarded with no increment. -/
theorem processEntry_email_rejected (rm : String → String → Bool) (pat : Option String)
    (e job js stats email : JVal) (rts : List JVal)
    (hNav : navJob e = some job)
    (hjs : job.getKey "jobStatus" = some js)
    (hst : js.getKey "state" = some (.str "DONE"))
    (herr : JVal.jlen ((js.getKey "error").getD (.obj [])) = some 0)
    (hem : emailOf e = some email)
    (hstats : job.getKey "jobStatistics" = some stats)
    (hrt : stats.getKey "referencedTables" = some (.arr rts))
    (hne : rts ≠ [])
    (hrej : emailFilter rm pat email = .ok false) :
    processEntry rm pat e = .ok ([], false) := by
  have hdone : JVal.pyNeStr (.str "DONE") "DONE" = false := by
    simp [JVal.pyNeStr]
  have htruthy : JVal.truthy (.arr rts) = true := by
    simp [JVal.truthy, hne]
  simp only [processEntry, hNav, hjs, hst, hdone, Bool.false_eq_true, if_false,
    herr, lt_self_iff_false, hem, hstats, hrt, Option.getD_some, htruthy,
    if_true, hrej]

/-! ### The extraction cursor -/

theorem extractSeq_exhausted (s : AggState) (m : Nat) :
    extractSeq ⟨s, []⟩ m = List.replicate m none := by
  induction m with
  | zero => rfl
  | succ m ih => simp [extractSeq, extract, ih, List.replicate_succ]

theorem extractSeq_cursor (s2 : AggState) :
    ∀ (s1 : AggState) (m : Nat), ((s1 ++ s2).map Prod.fst).Nodup →
      extractSeq ⟨s1 ++ s2, s2.map Prod.fst⟩ (s2.length + m) =
        s2.map some ++ List.replicate m none := by
  induction s2 with
  | nil =>
    intro s1 m h
    simpa using extractSeq_exhausted s1 m
  | cons p rest ih =>
    obtain ⟨k, v⟩ := p
    intro s1 m h
    have hk1 : k ∉ s1.map Prod.fst := by
      intro hk
      rw [List.map_append] at h
      have hdisj := (List.nodup_append.mp h).2.2
      exact hdisj hk (by simp)
    have hlk : lookup (s1 ++ (k, v) :: rest) k = some v := by
      rw [lookup_append, (lookup_eq_none_iff s1 k).mpr hk1]
      simp [lookup]
    have hnum : ((k, v) :: rest).length + m = (rest.length + m) + 1 := by
      simp
      omega
    rw [hnum]
    have hstep : extractSeq ⟨s1 ++ (k, v) :: rest, ((k, v) :: rest).map Prod.fst⟩
        ((rest.length + m) + 1) =
        some (k, lookupN (s1 ++ (k, v) :: rest) k) ::
          extractSeq ⟨s1 ++ (k, v) :: rest, rest.map Prod.fst⟩ (rest.length + m) := by
      simp [extractSeq, extract]
    rw [hstep]
    have hre : s1 ++ (k, v) :: rest = (s1 ++ [(k, v)]) ++ rest := by simp
    rw [show lookupN (s1 ++ (k, v) :: rest) k = v by simp [lookupN, hlk]]
    rw [hre] at h ⊢
    rw [ih (s1 ++ [(k, v)]) m h]
    simp

/-! ### Claim theorems -/

/-- C1 (counterexample): an entry whose job-completed payload is present but
whose job record lacks the `jobStatus` field is not silently discarded —
processing it raises an uncaught exception out of the aggregation run
(`.error`), falsifying the claim that a missing `jobStatus` (or any of the
deeper expected fields) leads to a silent skip with processing continuing. -/
theorem c1_missing_jobStatus_raises :
    countUsage reMatchLiteral none [entryMissingJobStatus] = .error ([], 0) := rfl

/-- C1 (amended): only a failure of the `try`-guarded navigation
`protoPayload → serviceData → jobCompletedEvent → job` (line 52) is silently
discarded, with the aggregation run continuing unchanged on the remaining
entries; expected fields missing below that point (`jobStatus`, `state`,
`authenticationInfo`/`principalEmail`, `jobStatistics`,
`totalTablesProcessed`) instead raise out of the run. -/
theorem c1_nav_failure_skipped (rm : String → String → Bool)
    (pat : Option String) (e : JVal) (l : List JVal) (h : navJob e = none) :
    countUsage rm pat (e :: l) = countUsage rm pat l := by
  have hpe : processEntry rm pat e = .ok ([], false) := by
    simp only [processEntry, h]
  simp [countUsage, runEntries, hpe, applyKeys]

/-- Witness for C1 (amended): a concrete entry missing `serviceData` is
skipped and the run over the remaining entries is unchanged. -/
theorem c1_nav_failure_skipped_witness :
    navJob entryMissingServiceData = none ∧
      countUsage reMatchLiteral none [entryMissingServiceData, goodEntry "alice@co"] =
        countUsage reMatchLiteral none [goodEntry "alice@co"] :=
  ⟨rfl, c1_nav_failure_skipped reMatchLiteral none entryMissingServiceData
    [goodEntry "alice@co"] rfl⟩

/-- C2 (code bug): in the three-page scenario in which fetching page 3 fails
transiently exactly once and then succeeds, the paginator takes exactly one
retry delay but, because the `while response:` loop re-enters with `response`
still bound to page 2, it yields page 2 a second time before retrying — so
the entries `e3`, `e4` of page 2 are produced twice, not "every entry exactly
once" as the claim states. -/
theorem c2_retry_duplicates_page :
    pageOverResults transientCalls 10 = .ok ([page1, page2, page2, page3], 1) ∧
      retrievedEntries [page1, page2, page2, page3] =
        [.str "e1", .str "e2", .str "e3", .str "e4",
         .str "e3", .str "e4", .str "e5", .str "e6"] ∧
      (retrievedEntries [page1, page2, page2, page3]).countP (isStrVal "e3") = 2 :=
  ⟨rfl, rfl, rfl⟩

/-- C5: an entry whose job state is not `"DONE"`, or whose job error set is
non-empty, or whose referenced-tables value is absent or empty (falsy),
contributes zero usage-count increments, whatever its other fields hold. -/
theorem c5_filtered_entries_contribute_nothing
    (rm : String → String → Bool) (pat : Option String)
    (e job js st : JVal)
    (hNav : navJob e = some job)
    (hjs : job.getKey "jobStatus" = some js)
    (hst : js.getKey "state" = some st)
    (hdisj : st ≠ .str "DONE" ∨
      (∃ n, JVal.jlen ((js.getKey "error").getD (.obj [])) = some n ∧ 0 < n) ∨
      (∃ stats, job.getKey "jobStatistics" = some stats ∧
        ((stats.getKey "referencedTables").getD .null).truthy = false)) :
    entryIncrements rm pat e = [] := by
  simp only [entryIncrements, processEntry, hNav, hjs, hst]
  rcases hdisj with hne | ⟨n, hn, hpos⟩ | ⟨stats, hstats, hfalsy⟩
  · simp [pyNeStr_eq_true_of_ne hne]
  · cases hpn : st.pyNeStr "DONE" with
    | true => simp [hpn]
    | false => simp [hpn, hn, hpos]
  · cases hpn : st.pyNeStr "DONE" with
    | true => simp [hpn]
    | false =>
      cases hjl : JVal.jlen ((js.getKey "error").getD (.obj [])) with
      | none => simp [hpn, hjl]
      | some n =>
        by_cases h0 : 0 < n
        · simp [hpn, hjl, h0]
        · cases hemo : emailOf e with
          | none => simp [hpn, hjl, h0, hemo]
          | some em => simp [hpn, hjl, h0, hemo, hstats, hfalsy]

/-- Witness for C5: the concrete entry whose job state is `"RUNNING"`
contributes no increment. -/
theorem c5_filtered_entries_contribute_nothing_witness :
    entryIncrements reMatchLiteral none runningEntry = [] :=
  c5_filtered_entries_contribute_nothing reMatchLiteral none runningEntry
    (.obj [("jobStatus", .obj [("state", .str "RUNNING")])])
    (.obj [("state", .str "RUNNING")]) (.str "RUNNING") rfl rfl rfl
    (Or.inl (by
      intro hh
      injection hh with hh
      exact absurd hh (by decide)))

/-- C3: a qualifying entry (payload navigable, job DONE, no errors, non-empty
referenced-tables array, email passing any configured filter, remaining
fields readable) with `K = rts.length` referenced tables performs exactly
`K` usage-count increments, one per (projectId, datasetId, tableId) triple,
each key having `database = "bigquery"`, `column = "*"` and `email` equal to
the entry's principal email. -/
theorem c3_one_increment_per_referenced_table
    (rm : String → String → Bool) (pat : Option String)
    (e job js stats tot email : JVal) (emS : JScalar) (rts : List JVal)
    (hNav : navJob e = some job)
    (hjs : job.getKey "jobStatus" = some js)
    (hst : js.getKey "state" = some (.str "DONE"))
    (herr : JVal.jlen ((js.getKey "error").getD (.obj [])) = some 0)
    (hem : emailOf e = some email)
    (hemS : email.toScalar = some emS)
    (hstats : job.getKey "jobStatistics" = some stats)
    (hrt : stats.getKey "referencedTables" = some (.arr rts))
    (hne : rts ≠ [])
    (hpat : patternPasses rm pat email)
    (htot : stats.getKey "totalTablesProcessed" = some tot)
    (hname : JVal.lenNeq rts.length tot = true →
      ((job.getKey "jobName").bind (fun jn => jn.getKey "jobId")).isSome)
    (htabs : ∀ t ∈ rts, refOk t) :
    processEntry rm pat e =
        .ok (rts.map (keyOf emS), JVal.lenNeq rts.length tot) ∧
      (rts.map (keyOf emS)).length = rts.length ∧
      ∀ key ∈ rts.map (keyOf emS),
        key.database = .str "bigquery" ∧ key.column = .str "*" ∧
          key.email = emS := by
  refine ⟨processEntry_qualifying rm pat e job js stats tot email emS rts
    hNav hjs hst herr hem hemS hstats hrt hne hpat htot hname htabs,
    by simp, ?_⟩
  intro key hk
  obtain ⟨t, ht, rfl⟩ := List.mem_map.mp hk
  exact ⟨rfl, rfl, rfl⟩

/-- Witness for C3 at a concrete DONE entry with one referenced table. -/
theorem c3_one_increment_per_referenced_table_witness :
    entryIncrements reMatchLiteral none (goodEntry "alice@co") =
      [goodKey "alice@co"] := by
  have h := c3_one_increment_per_referenced_table reMatchLiteral none
    (goodEntry "alice@co")
    (.obj [("jobStatus", .obj [("state", .str "DONE")]),
           ("jobStatistics", .obj [("referencedTables", .arr [refT1]),
                                   ("totalTablesProcessed", .num 1)]),
           ("jobName", .obj [("jobId", .str "j1")])])
    (.obj [("state", .str "DONE")])
    (.obj [("referencedTables", .arr [refT1]), ("totalTablesProcessed", .num 1)])
    (.num 1) (.str "alice@co") (.str "alice@co") [refT1]
    rfl rfl rfl rfl rfl rfl rfl rfl (List.cons_ne_nil refT1 []) rfl rfl
    (fun _ => rfl)
    (by
      intro t ht
      rw [List.mem_singleton] at ht
      subst ht
      exact ⟨rfl, rfl, rfl⟩)
  rw [entryIncrements, h.1]
  rfl

/-- C6: with an email pattern configured (modelling `re.match` on a
metacharacter-free pattern, which succeeds exactly on a leading-substring
match), an otherwise-qualifying entry contributes usage records if and only
if the pattern matches a leading substring of its principal email. -/
theorem c6_email_filter_prefix_iff
    (p s : String) (e job js stats tot : JVal) (rts : List JVal)
    (hNav : navJob e = some job)
    (hjs : job.getKey "jobStatus" = some js)
    (hst : js.getKey "state" = some (.str "DONE"))
    (herr : JVal.jlen ((js.getKey "error").getD (.obj [])) = some 0)
    (hem : emailOf e = some (.str s))
    (hstats : job.getKey "jobStatistics" = some stats)
    (hrt : stats.getKey "referencedTables" = some (.arr rts))
    (hne : rts ≠ [])
    (htot : stats.getKey "totalTablesProcessed" = some tot)
    (hname : JVal.lenNeq rts.length tot = true →
      ((job.getKey "jobName").bind (fun jn => jn.getKey "jobId")).isSome)
    (htabs : ∀ t ∈ rts, refOk t) :
    entryIncrements reMatchLiteral (some p) e ≠ [] ↔
      reMatchLiteral p s = true := by
  by_cases hm : reMatchLiteral p s = true
  · have hpat : patternPasses reMatchLiteral (some p) (.str s) := by
      rw [patternPasses, emailFilter]
      by_cases hemp : p.isEmpty <;> simp [hemp, hm]
    have h := processEntry_qualifying reMatchLiteral (some p) e job js stats
      tot (.str s) (.str s) rts hNav hjs hst herr hem rfl hstats hrt hne hpat
      htot hname htabs
    rw [entryIncrements, h]
    simpa [hm] using hne
  · have hemp : p.isEmpty = false := by
      cases hq : p.isEmpty
      · rfl
      · exfalso
        apply hm
        rw [reMatchLiteral, (String.isEmpty_iff p).mp hq, String.toList_empty]
        cases s.toList <;> rfl
    have hf : reMatchLiteral p s = false := by
      cases h2 : reMatchLiteral p s
      · rfl
      · exact absurd h2 hm
    have hrej : emailFilter reMatchLiteral (some p) (.str s) = .ok false := by
      simp [emailFilter, hemp, hf]
    have h := processEntry_email_rejected reMatchLiteral (some p) e job js
      stats (.str s) rts hNav hjs hst herr hem hstats hrt hne hrej
    rw [entryIncrements, h]
    simp [hm]

/-- Witness for C6: the pattern `"alice"` admits `alice@co` (a proper
leading substring, not a full match) and rejects `bob@co`. -/
theorem c6_email_filter_prefix_iff_witness :
    entryIncrements reMatchLiteral (some "alice") (goodEntry "alice@co") ≠ [] ∧
      entryIncrements reMatchLiteral (some "alice") (goodEntry "bob@co") = [] := by
  constructor
  · have h := c6_email_filter_prefix_iff "alice" "alice@co"
      (goodEntry "alice@co")
      (.obj [("jobStatus", .obj [("state", .str "DONE")]),
             ("jobStatistics", .obj [("referencedTables", .arr [refT1]),
                                     ("totalTablesProcessed", .num 1)]),
             ("jobName", .obj [("jobId", .str "j1")])])
      (.obj [("state", .str "DONE")])
      (.obj [("referencedTables", .arr [refT1]), ("totalTablesProcessed", .num 1)])
      (.num 1) [refT1]
      rfl rfl rfl rfl rfl rfl rfl (List.cons_ne_nil refT1 []) rfl
      (fun _ => rfl)
      (by
        intro t ht
        rw [List.mem_singleton] at ht
        subst ht
        exact ⟨rfl, rfl, rfl⟩)
    exact h.mpr rfl
  · have h := c6_email_filter_prefix_iff "alice" "bob@co"
      (goodEntry "bob@co")
      (.obj [("jobStatus", .obj [("state", .str "DONE")]),
             ("jobStatistics", .obj [("referencedTables", .arr [refT1]),
                                     ("totalTablesProcessed", .num 1)]),
             ("jobName", .obj [("jobId", .str "j1")])])
      (.obj [("state", .str "DONE")])
      (.obj [("referencedTables", .arr [refT1]), ("totalTablesProcessed", .num 1)])
      (.num 1) [refT1]
      rfl rfl rfl rfl rfl rfl rfl (List.cons_ne_nil refT1 []) rfl
      (fun _ => rfl)
      (by
        intro t ht
        rw [List.mem_singleton] at ht
        subst ht
        exact ⟨rfl, rfl, rfl⟩)
    have hno : reMatchLiteral "alice" "bob@co" = false := by decide
    by_contra hne2
    exact absurd (h.mp hne2) (by simp [hno])

/-- C7: a qualifying entry whose referenced-table count disagrees with
`totalTablesProcessed` (and whose `jobName.jobId` is readable for the warning
text) is not discarded: the consistency warning is emitted and every listed
referenced table still produces its increment. -/
theorem c7_mismatch_warns_and_still_counts
    (rm : String → String → Bool) (pat : Option String)
    (e job js stats tot email : JVal) (emS : JScalar) (rts : List JVal)
    (hNav : navJob e = some job)
    (hjs : job.getKey "jobStatus" = some js)
    (hst : js.getKey "state" = some (.str "DONE"))
    (herr : JVal.jlen ((js.getKey "error").getD (.obj [])) = some 0)
    (hem : emailOf e = some email)
    (hemS : email.toScalar = some emS)
    (hstats : job.getKey "jobStatistics" = some stats)
    (hrt : stats.getKey "referencedTables" = some (.arr rts))
    (hne : rts ≠ [])
    (hpat : patternPasses rm pat email)
    (htot : stats.getKey "totalTablesProcessed" = some tot)
    (hmm : JVal.lenNeq rts.length tot = true)
    (hnameS : ((job.getKey "jobName").bind (fun jn => jn.getKey "jobId")).isSome)
    (htabs : ∀ t ∈ rts, refOk t) :
    processEntry rm pat e = .ok (rts.map (keyOf emS), true) ∧
      (rts.map (keyOf emS)).length = rts.length := by
  have h := processEntry_qualifying rm pat e job js stats tot email emS rts
    hNav hjs hst herr hem hemS hstats hrt hne hpat htot (fun _ => hnameS) htabs
  rw [hmm] at h
  exact ⟨h, by simp⟩

/-- Witness for C7: the concrete `totalTablesProcessed = 2`, one-table entry
still yields its single increment with the warning flag set. -/
theorem c7_mismatch_warns_and_still_counts_witness :
    processEntry reMatchLiteral none mismatchEntry =
      .ok ([goodKey "alice@co"], true) := by
  have h := c7_mismatch_warns_and_still_counts reMatchLiteral none
    mismatchEntry
    (.obj [("jobStatus", .obj [("state", .str "DONE")]),
           ("jobStatistics", .obj [("referencedTables", .arr [refT1]),
                                   ("totalTablesProcessed", .num 2)]),
           ("jobName", .obj [("jobId", .str "j1")])])
    (.obj [("state", .str "DONE")])
    (.obj [("referencedTables", .arr [refT1]), ("totalTablesProcessed", .num 2)])
    (.num 2) (.str "alice@co") (.str "alice@co") [refT1]
    rfl rfl rfl rfl rfl rfl rfl rfl (List.cons_ne_nil refT1 []) rfl rfl
    (by decide) rfl
    (by
      intro t ht
      rw [List.mem_singleton] at ht
      subst ht
      exact ⟨rfl, rfl, rfl⟩)
  exact h.1

/-- C4: after a completed aggregation run builds the map `s`, the first
`s.length` calls to `extract` return every `(UsageKey, count)` pair of the
map exactly once (in cursor order), and every one of the `m` subsequent
calls returns the terminal signal `none` — not an error. -/
theorem c4_extract_each_pair_once_then_none
    (rm : String → String → Bool) (pat : Option String)
    (l : List JVal) (s : AggState) (w : Nat)
    (h : countUsage rm pat l = .ok (s, w)) (m : Nat) :
    extractSeq (initExtract s) (s.length + m) =
      s.map some ++ List.replicate m none := by
  have hs : s = applyKeys [] (incs rm pat l) :=
    ((countUsage_ok_iff rm pat l s w).mp h).2.1
  have hnodup : (s.map Prod.fst).Nodup := by
    rw [hs]
    exact nodup_keys_applyKeys _ [] (by simp)
  have hcur := extractSeq_cursor s [] m (by simpa using hnodup)
  simpa [initExtract] using hcur

/-- Witness for C4: a two-entry run yields its two pairs and then `none`
twice. -/
theorem c4_extract_each_pair_once_then_none_witness :
    extractSeq (initExtract [(goodKey "alice@co", 1), (goodKey "bob@co", 1)]) 4 =
      [some (goodKey "alice@co", 1), some (goodKey "bob@co", 1), none, none] :=
  c4_extract_each_pair_once_then_none reMatchLiteral none
    [goodEntry "alice@co", goodEntry "bob@co"]
    [(goodKey "alice@co", 1), (goodKey "bob@co", 1)] 0 rfl 2

/-- C8: the aggregation fold is order-independent on final counts — if the
run completes on an entry list, it completes on any permutation of it, and
the resulting maps store the same count for every usage key. -/
theorem c8_aggregation_order_independent
    (rm : String → String → Bool) (pat : Option String)
    (l l2 : List JVal) (s : AggState) (w : Nat)
    (h : countUsage rm pat l = .ok (s, w)) (hperm : l.Perm l2) :
    ∃ s2 w2, countUsage rm pat l2 = .ok (s2, w2) ∧
      ∀ k, lookup s2 k = lookup s k := by
  rw [countUsage_ok_iff] at h
  obtain ⟨hall, hs, -⟩ := h
  refine ⟨applyKeys [] (incs rm pat l2), warnCount rm pat l2, ?_, ?_⟩
  · rw [countUsage_ok_iff]
    exact ⟨fun e he => hall e (hperm.mem_iff.mpr he), rfl, rfl⟩
  · intro k
    have hp : (incs rm pat l).Perm (incs rm pat l2) := by
      simp only [incs]
      exact hperm.flatMap_right _
    rw [hs, lookup_applyKeys_nil, lookup_applyKeys_nil, hp.count_eq]
    simp only [hp.mem_iff]

/-- Witness for C8: swapping the two entries of a concrete run leaves every
stored count unchanged. -/
theorem c8_aggregation_order_independent_witness :
    ∃ s2 w2,
      countUsage reMatchLiteral none [goodEntry "bob@co", goodEntry "alice@co"] =
          .ok (s2, w2) ∧
        ∀ k, lookup s2 k =
          lookup [(goodKey "alice@co", 1), (goodKey "bob@co", 1)] k :=
  c8_aggregation_order_independent reMatchLiteral none
    [goodEntry "alice@co", goodEntry "bob@co"]
    [goodEntry "bob@co", goodEntry "alice@co"]
    [(goodKey "alice@co", 1), (goodKey "bob@co", 1)] 0 rfl
    (List.Perm.swap (goodEntry "bob@co") (goodEntry "alice@co") [])

/-- C9: counts accumulate additively per key — when the run completes and
exactly `n > 0` qualifying table references across all entries map to key
`k`, the final map stores exactly `n` for `k`. -/
theorem c9_count_equals_qualifying_references
    (rm : String → String → Bool) (pat : Option String)
    (l : List JVal) (s : AggState) (w : Nat) (k : TableColumnUsageTuple)
    (n : Nat) (h : countUsage rm pat l = .ok (s, w))
    (hcnt : (incs rm pat l).count k = n) (hpos : 0 < n) :
    lookup s k = some n := by
  obtain ⟨-, hs, -⟩ := (countUsage_ok_iff rm pat l s w).mp h
  have hm : k ∈ incs rm pat l := by
    by_contra hno
    rw [List.count_eq_zero.mpr hno] at hcnt
    omega
  rw [hs, lookup_applyKeys_nil]
  simp [hm, hcnt]

/-- Witness for C9: two references to the same table by the same principal
store the count 2. -/
theorem c9_count_equals_qualifying_references_witness :
    lookup [(goodKey "alice@co", 2)] (goodKey "alice@co") = some 2 :=
  c9_count_equals_qualifying_references reMatchLiteral none
    [goodEntry "alice@co", goodEntry "alice@co"]
    [(goodKey "alice@co", 2)] 0 (goodKey "alice@co") 2 rfl rfl (by decide)

/-- C10: every key present in the aggregation state — after a completed run
or at the abort point of a failed one — has a strictly positive stored
count, and `extract` never mutates the map. -/
theorem c10_counts_positive_extract_pure
    (rm : String → String → Bool) (pat : Option String) (l : List JVal) :
    PosVals (resultState (countUsage rm pat l)) ∧
      ∀ st : ExtractState, (extract st).2.counts = st.counts := by
  constructor
  · exact posVals_runEntries rm pat l ([], 0) (fun k n h => nomatch h)
  · rintro ⟨c, cur⟩
    cases cur <;> rfl

/-- Witness for C10: the concrete one-entry run stores a positive count and
`extract` leaves a concrete map untouched. -/
theorem c10_counts_positive_extract_pure_witness :
    1 ≤ 1 ∧
      (extract ⟨[(goodKey "alice@co", 1)], [goodKey "alice@co"]⟩).2.counts =
        [(goodKey "alice@co", 1)] :=
  ⟨(c10_counts_positive_extract_pure reMatchLiteral none
      [goodEntry "alice@co"]).1 (goodKey "alice@co") 1 rfl,
    (c10_counts_positive_extract_pure reMatchLiteral none
      [goodEntry "alice@co"]).2 ⟨[(goodKey "alice@co", 1)], [goodKey "alice@co"]⟩⟩

end BQUsage
